import Mathlib

/-!
Verification of the ordering / optimistic-sync core of a single-list todo
manager (Next.js server actions + Supabase store).

Definitions are shallow embeddings of:
  * `src/app/actions.ts`   — server actions `addTodo`, `reorderTodos`,
    `toggleTodo`, `deleteTodo`, `clearCompleted`, `fetchTodos`;
  * `src/app/TodoApp.tsx`  — client handlers `onAdd`, `onToggle`,
    `reorderTodosById` / `handleTouchEnd` (placeholder generation and
    the `temp-` prefix filter).
The remote store (a Supabase `todos` table) is modelled as a list of rows;
its contract (`listItems` ordered by position ascending, per-row position
update) is modelled from the spec's store-capability section.
-/

/-- The persisted unit, from `type Todo` in `src/app/actions.ts`:
`{ id: string; text: string; completed: boolean; position: number }`.
Positions are integers (the app only ever writes integer positions). -/
structure Todo where
  id : String
  text : String
  completed : Bool
  position : Int
deriving Repr, DecidableEq

/-- JavaScript whitespace as used by `String.prototype.trim()` (the code
points the code can realistically receive from a text input; `trim` strips
Unicode WhiteSpace, of which these are the members relevant here). -/
def isJsSpace (c : Char) : Bool :=
  c = ' ' || c = '\t' || c = '\n' || c = '\r' || c = '\x0b' || c = '\x0c' ||
  c = '\u00a0' || c = '\ufeff'

/-- `text.trim()`: drop leading and trailing whitespace. -/
def jsTrimChars (l : List Char) : List Char :=
  ((l.dropWhile isJsSpace).reverse.dropWhile isJsSpace).reverse

/-- `text.trim()` on a `String`. -/
def jsTrim (s : String) : String :=
  ⟨jsTrimChars s.data⟩

/-- `(formData.get("text") || "")`: a missing form field (`null`) and the
empty string both collapse to `""`. -/
def formText (field : Option String) : String :=
  field.getD ""

/-- Server-side minimum position, from `addTodo` in `actions.ts`:
`todos.length ? Math.min(...todos.map(t => t.position)) : 0`. -/
def minPosOrZero (todos : List Todo) : Int :=
  match todos.map (fun t => t.position) with
  | [] => 0
  | p :: ps => ps.foldl min p

/-- Server-side position for a new row, from `addTodo`:
`const newPos = minPos - 1; // place on top`. -/
def serverInsertPosition (todos : List Todo) : Int :=
  minPosOrZero todos - 1

/-- Client-side minimum position, from `onAdd` in `TodoApp.tsx`:
`optimisticTodos.length ? Math.min(...optimisticTodos.map(t => t.position ?? 0)) : 0`.
(`position` is non-nullable in the embedding, so `?? 0` is the identity.) -/
def clientMinPos (todos : List Todo) : Int :=
  match todos.map (fun t => t.position) with
  | [] => 0
  | p :: ps => ps.foldl min p

/-- Client-side position for the optimistic placeholder, from `onAdd`:
`position: minPos - 1`. -/
def clientInsertPosition (todos : List Todo) : Int :=
  clientMinPos todos - 1

/-- Decimal digit characters of a natural number, most significant first —
the rendering of the number `Date.now()` inside the template literal
``temp-${Date.now()}``. Structural recursion on a fuel argument. -/
def decimalDigitsAux : Nat → Nat → List Char
  | 0, _ => []
  | fuel + 1, n =>
    if n < 10 then [Nat.digitChar n]
    else decimalDigitsAux fuel (n / 10) ++ [Nat.digitChar (n % 10)]

/-- Decimal rendering of a natural number (enough fuel for any `n`). -/
def decimalDigits (n : Nat) : List Char :=
  decimalDigitsAux (n + 1) n

/-- The client-generated placeholder identifier, from `onAdd`:
``id: `temp-${Date.now()}` ``. -/
def placeholderId (now : Nat) : String :=
  ⟨'t' :: 'e' :: 'm' :: 'p' :: '-' :: decimalDigits now⟩

/-- The client's placeholder discriminator, from `TodoApp.tsx`:
`id.startsWith('temp-')`. -/
def startsWithTemp (s : String) : Bool :=
  match s.data with
  | 't' :: 'e' :: 'm' :: 'p' :: '-' :: _ => true
  | _ => false

/-- `[0-9a-fA-F]` of the server's durable-identifier regular expression. -/
def isHexDigit (c : Char) : Bool :=
  ('0' ≤ c && c ≤ '9') || ('a' ≤ c && c ≤ 'f') || ('A' ≤ c && c ≤ 'F')

/-- `[1-5]`: the version nibble of the regular expression. -/
def isVersionNibble (c : Char) : Bool :=
  '1' ≤ c && c ≤ '5'

/-- `[89abAB]`: the variant nibble of the regular expression. -/
def isVariantNibble (c : Char) : Bool :=
  c = '8' || c = '9' || c = 'a' || c = 'b' || c = 'A' || c = 'B'

/-- Consume exactly `n` hexadecimal digits, returning the rest. -/
def hexRun : Nat → List Char → Option (List Char)
  | 0, l => some l
  | _ + 1, [] => none
  | n + 1, c :: cs => if isHexDigit c then hexRun n cs else none

/-- Consume a literal `-`. -/
def expectDash : List Char → Option (List Char)
  | '-' :: cs => some cs
  | _ => none

/-- Consume one character satisfying `p`. -/
def expectNibble (p : Char → Bool) : List Char → Option (List Char)
  | c :: cs => if p c then some cs else none
  | [] => none

/-- The server's durable-identifier test on a character list, from
`reorderTodos` in `actions.ts`:
`/^(?:[0-9a-fA-F]{8}-[0-9a-fA-F]{4}-[1-5][0-9a-fA-F]{3}-[89abAB][0-9a-fA-F]{3}-[0-9a-fA-F]{12})$/`. -/
def isUuidChars (l : List Char) : Bool :=
  match (do
    let l ← hexRun 8 l
    let l ← expectDash l
    let l ← hexRun 4 l
    let l ← expectDash l
    let l ← expectNibble isVersionNibble l
    let l ← hexRun 3 l
    let l ← expectDash l
    let l ← expectNibble isVariantNibble l
    let l ← hexRun 3 l
    let l ← expectDash l
    hexRun 12 l : Option (List Char)) with
  | some [] => true
  | _ => false

/-- The server's durable-identifier test on a `String`. -/
def isUuidFormat (s : String) : Bool :=
  isUuidChars s.data

/-- A durable call issued by `addTodo`: the `fetchTodos` read or the
`insert` write. -/
inductive AddCall
  | fetch
  | insertRow (row : Todo)
deriving Repr, DecidableEq

/-- Result of the server action `addTodo`: the `ok` flag it returns, the
store rows after the action (the store is modelled as a list of rows), and
the durable calls issued in order. -/
structure AddOutcome where
  ok : Bool
  store : List Todo
  calls : List AddCall
deriving Repr, DecidableEq

/-- Server action `addTodo` from `actions.ts`: trim the submitted text,
reject when empty before any durable call, otherwise read the list and
insert a row at `minPos - 1` with a fresh durable id `newId` (the
`crypto.randomUUID()` value). -/
def addTodo (field : Option String) (newId : String) (store : List Todo) : AddOutcome :=
  let text := jsTrim (formText field)
  if text = "" then { ok := false, store := store, calls := [] }
  else
    { ok := true
      store := store ++
        [{ id := newId, text := text, completed := false
           position := serverInsertPosition store }]
      calls :=
        [.fetch,
         .insertRow
           { id := newId, text := text, completed := false
             position := serverInsertPosition store }] }

/-- Client handler `onAdd` from `TodoApp.tsx`, local step: trim the text,
return unchanged when empty, otherwise prepend the optimistic placeholder
`{ id: temp-now, text, completed: false, position: minPos - 1 }`. -/
def onAddLocal (field : Option String) (now : Nat) (lv : List Todo) : List Todo :=
  let text := jsTrim (formText field)
  if text = "" then lv
  else
    { id := placeholderId now, text := text, completed := false
      position := clientInsertPosition lv } :: lv

/-- Outcome of the `supabase.rpc("reorder_todos", …)` call in
`reorderTodos`: it resolves without error, resolves with an error object,
or throws. -/
inductive RpcOutcome
  | success
  | errorResult
  | thrown
deriving Repr, DecidableEq

/-- A durable call issued by `reorderTodos`: the atomic RPC, or one
per-row `update({ position }).eq("id", id)` write. -/
inductive StoreCall
  | rpcReorder (ids : List String)
  | updateRowPosition (id : String) (pos : Int)
deriving Repr, DecidableEq

/-- Result of `reorderTodos`: the `ok` flag and the durable calls issued,
in issue order. -/
structure ReorderOutcome where
  ok : Bool
  calls : List StoreCall
deriving Repr, DecidableEq

/-- The fallback position assignment of `reorderTodos`
(`uuidIds.map((id, index) => …update({ position: index })…)`): the i-th
identifier is paired with position `i`. The spec names this
`computeReorderPositions`. -/
def computeReorderPositions (ids : List String) : List (String × Int) :=
  ids.enum.map (fun p => (p.2, (p.1 : Int)))

/-- Server action `reorderTodos` from `actions.ts`, as the trace of durable
calls it issues: filter to durable-format ids; if none remain return ok with
no calls; otherwise attempt the RPC — on success stop, on an error result or
a thrown error fall through to the per-row position writes. -/
def reorderTodos (rpc : RpcOutcome) (newOrderIds : List String) : ReorderOutcome :=
  let uuidIds := newOrderIds.filter isUuidFormat
  if uuidIds.isEmpty then { ok := true, calls := [] }
  else
    match rpc with
    | .success => { ok := true, calls := [.rpcReorder uuidIds] }
    | _ =>
      { ok := true
        calls := .rpcReorder uuidIds ::
          (computeReorderPositions uuidIds).map
            (fun p => .updateRowPosition p.1 p.2) }

/-- Modelled from the spec: the store's per-row position update
(`updateItem(id, {position})`), the effect of one
`update({ position: pos }).eq("id", id)` call on the table rows. -/
def updateRow (id : String) (pos : Int) (store : List Todo) : List Todo :=
  store.map (fun t => if t.id = id then { t with position := pos } else t)

/-- The store effect of applying the computed reorder positions `n, n+1, …`
to the identifiers in order (the fallback's batch of per-row writes, which
commute because the ids are distinct; also the loop body of the optional
`reorder_todos` SQL function). -/
def applyOrderFrom (n : Nat) : List String → List Todo → List Todo
  | [], store => store
  | id :: rest, store => applyOrderFrom (n + 1) rest (updateRow id n store)

/-- The store effect of a completed `reorderTodos` durable phase: durable
ids get positions `0, 1, 2, …` in input order. -/
def reorderStore (ids : List String) (store : List Todo) : List Todo :=
  applyOrderFrom 0 (ids.filter isUuidFormat) store

/-- Ordering of rows by position, the store's read order. -/
def byPosition (a b : Todo) : Prop :=
  a.position ≤ b.position

instance : DecidableRel byPosition := fun a b => Int.decLe a.position b.position

instance : IsTotal Todo byPosition := ⟨fun a b => Int.le_total a.position b.position⟩

instance : IsTrans Todo byPosition := ⟨fun _ _ _ h₁ h₂ => Int.le_trans h₁ h₂⟩

/-- Modelled from the spec: the store read
`listItems() → ordered sequence of Item, ordered by position ascending`
(`fetchTodos` in `actions.ts` delegates the ordering to the store via
`.order("position", { ascending: true })`). -/
def listItems (store : List Todo) : List Todo :=
  store.insertionSort byPosition

/-- Errors surfaced by the durable path. -/
inductive StoreError
  | notFound
  | unavailable
deriving Repr, DecidableEq

/-- Server action `toggleTodo` from `actions.ts`: `.select("completed")
.eq("id", id).single()` errors unless exactly one row matches (the
`NotFoundError` of the spec); otherwise the matching row's `completed` is
overwritten with the negation of the value read. -/
def toggleTodoServer (store : List Todo) (id : String) : Except StoreError (List Todo) :=
  match store.filter (fun t => t.id = id) with
  | [t] =>
    .ok (store.map (fun r => if r.id = id then { r with completed := !t.completed } else r))
  | _ => .error .notFound

/-- Whether the dispatched durable call reaches the store at all. -/
inductive Delivery
  | delivered
  | unreachable
deriving Repr, DecidableEq

/-- A client session: the optimistic local view and the durable store. -/
structure Session where
  localView : List Todo
  store : List Todo
deriving Repr, DecidableEq

/-- The local step of `onToggle` in `TodoApp.tsx`: flip `completed` on
every locally-held item with the given id. -/
def onToggleLocal (id : String) (lv : List Todo) : List Todo :=
  lv.map (fun t => if t.id = id then { t with completed := !t.completed } else t)

/-- Server action `deleteTodo` from `actions.ts`, store effect:
`.delete().eq("id", id)`. -/
def deleteTodoServer (store : List Todo) (id : String) : List Todo :=
  store.filter (fun t => !(t.id = id))

/-- The local step of `onDelete` in `TodoApp.tsx`:
`optimisticTodos.filter((t) => t.id !== id)`. -/
def onDeleteLocal (id : String) (lv : List Todo) : List Todo :=
  lv.filter (fun t => !(t.id = id))

/-- The local step of `onClearCompleted` in `TodoApp.tsx`:
`optimisticTodos.filter((t) => !t.completed)`. -/
def onClearCompletedLocal (lv : List Todo) : List Todo :=
  lv.filter (fun t => !t.completed)

/-- Server action `clearCompleted` from `actions.ts`, store effect:
`.delete().eq("completed", true)`. -/
def clearCompletedServer (store : List Todo) : List Todo :=
  store.filter (fun t => !t.completed)

/-- The local step of `reorderTodosById` (shared by drop and touch-release)
in `TodoApp.tsx`: find the dragged and target indices, return unchanged if
either is missing, otherwise splice the dragged item out and back in at the
target index. -/
def moveItemLocal (draggedId targetId : String) (lv : List Todo) : List Todo :=
  match lv.findIdx? (fun t => t.id = draggedId),
      lv.findIdx? (fun t => t.id = targetId) with
  | some fromIdx, some toIdx =>
    match lv[fromIdx]? with
    | some moved => List.insertIdx toIdx moved (lv.eraseIdx fromIdx)
    | none => lv
  | _, _ => lv

/-- A mutating intent of the interaction layer: every handler in
`TodoApp.tsx` that applies a local change and dispatches a durable call. -/
inductive Mutation
  | insert (field : Option String) (now : Nat) (newId : String)
  | toggle (id : String)
  | delete (id : String)
  | clearCompleted
  | reorder (draggedId targetId : String)

/-- The synchronous local step of each mutating intent, from its handler in
`TodoApp.tsx` (`onAdd`, `onToggle`, `onDelete`, `onClearCompleted`,
`reorderTodosById`). -/
def localStep : Mutation → List Todo → List Todo
  | .insert field now _, lv => onAddLocal field now lv
  | .toggle id, lv => onToggleLocal id lv
  | .delete id, lv => onDeleteLocal id lv
  | .clearCompleted, lv => onClearCompletedLocal lv
  | .reorder draggedId targetId, lv => moveItemLocal draggedId targetId lv

/-- The store effect of each intent's durable call, from `actions.ts`:
`addTodo`, `toggleTodo` (which can surface `NotFoundError`), `deleteTodo`,
`clearCompleted`, and the reorder writes for the spliced order's
non-placeholder ids (`current.map(t => t.id).filter(id =>
!id.startsWith('temp-'))`). -/
def durableRequest (m : Mutation) (newLocal : List Todo) (store : List Todo) :
    Except StoreError (List Todo) :=
  match m with
  | .insert field _ newId => Except.ok (addTodo field newId store).store
  | .toggle id => toggleTodoServer store id
  | .delete id => Except.ok (deleteTodoServer store id)
  | .clearCompleted => Except.ok (clearCompletedServer store)
  | .reorder _ _ =>
    Except.ok (reorderStore
      ((newLocal.map (fun t => t.id)).filter (fun id => !startsWithTemp id))
      store)

/-- One full interaction for any mutating intent: the local step is applied
synchronously; the durable call is dispatched without being awaited, so its
outcome (success, an error such as `NotFoundError`, or an unreachable
store) is never consumed by the client — a failed durable call leaves the
store as it was and the local change is never rolled back. -/
def sessionStep (m : Mutation) (net : Delivery) (s : Session) : Session :=
  { localView := localStep m s.localView
    store :=
      match net with
      | .unreachable => s.store
      | .delivered =>
        match durableRequest m (localStep m s.localView) s.store with
        | .ok st => st
        | .error _ => s.store }

/-- A durable call touches only durable-format identifiers. -/
def callUuidOnly : StoreCall → Bool
  | .rpcReorder l => l.all isUuidFormat
  | .updateRowPosition id _ => isUuidFormat id

/-- The closed form of a row after the whole batch of fallback position
writes for `ids` (positions starting at `n`) has been applied: a row whose
id occurs in `ids` carries `n +` its index, any other row is untouched. -/
def reorderedRow (ids : List String) (n : Nat) (t : Todo) : Todo :=
  if t.id ∈ ids then
    { t with position := ((n + List.indexOf t.id ids : Nat) : Int) }
  else t

/-! ### Helper lemmas -/

theorem foldl_min_le (ps : List Int) : ∀ (p x : Int), (x = p ∨ x ∈ ps) →
    ps.foldl min p ≤ x := by
  induction ps with
  | nil =>
    intro p x h
    rcases h with h | h
    · exact le_of_eq (by simpa [List.foldl] using h.symm)
    · cases h
  | cons a ps ih =>
    intro p x h
    rcases h with h | h
    · subst h
      exact le_trans (ih (min x a) (min x a) (Or.inl rfl)) (min_le_left _ _)
    · rcases List.mem_cons.mp h with h | h
      · subst h
        exact le_trans (ih (min p x) (min p x) (Or.inl rfl)) (min_le_right _ _)
      · exact ih (min p a) x (Or.inr h)

theorem minPosOrZero_le_mem (todos : List Todo) (t : Todo) (ht : t ∈ todos) :
    minPosOrZero todos ≤ t.position := by
  cases todos with
  | nil => cases ht
  | cons u rest =>
    show (rest.map (fun t => t.position)).foldl min u.position ≤ t.position
    rcases List.mem_cons.mp ht with h | h
    · exact foldl_min_le _ _ _ (Or.inl (by rw [h]))
    · exact foldl_min_le _ _ _ (Or.inr (List.mem_map_of_mem _ h))

theorem computeReorderPositions_map_fst (ids : List String) :
    (computeReorderPositions ids).map Prod.fst = ids := by
  simp [computeReorderPositions, List.map_map, Function.comp]
  exact List.enum_map_snd ids

theorem reorderTodos_calls_uuidOnly (rpc : RpcOutcome) (ids : List String) :
    ((reorderTodos rpc ids).calls).all callUuidOnly = true := by
  have hfilter : ∀ id ∈ ids.filter isUuidFormat, isUuidFormat id = true :=
    fun id hid => List.of_mem_filter hid
  have hrpc : callUuidOnly (.rpcReorder (ids.filter isUuidFormat)) = true :=
    List.all_eq_true.mpr hfilter
  have hupd : ∀ c ∈ (computeReorderPositions (ids.filter isUuidFormat)).map
      (fun p => StoreCall.updateRowPosition p.1 p.2), callUuidOnly c = true := by
    intro c hc
    rcases List.mem_map.mp hc with ⟨p, hp, rfl⟩
    have : p.1 ∈ ids.filter isUuidFormat := by
      have := List.mem_map_of_mem Prod.fst hp
      rwa [computeReorderPositions_map_fst] at this
    exact hfilter p.1 this
  have hall : ((computeReorderPositions (ids.filter isUuidFormat)).map
      (fun p => StoreCall.updateRowPosition p.1 p.2)).all callUuidOnly = true :=
    List.all_eq_true.mpr hupd
  by_cases h : (ids.filter isUuidFormat).isEmpty
  · simp [reorderTodos, h]
  · cases rpc <;>
      (simp only [reorderTodos]; rw [if_neg h]; simp [List.all_cons, hrpc, hall])

/-! ### Claim theorems -/

/-- C1 counterexample: inserting `"buy milk"` into an empty list does not
give the new item position `0` — the assigned position (locally and
durably) is `-1`, refuting "assignInsertPosition on an empty sequence
returns 0" for the insert path. -/
theorem insert_empty_position_zero_cex :
    serverInsertPosition [] = -1 ∧ ¬ serverInsertPosition [] = 0 ∧
    (addTodo (some "buy milk") "00000000-0000-1000-8000-000000000000" []).store.map
      (fun t => t.position) = [-1] ∧
    ¬ (addTodo (some "buy milk") "00000000-0000-1000-8000-000000000000" []).store.map
      (fun t => t.position) = [0] ∧
    (onAddLocal (some "buy milk") 1712345678901 []).map (fun t => t.position) = [-1] := by
  decide

/-- C1 (amended): for every insert of non-empty (after trimming) text into
an empty list, the position assigned to the new item is `-1` (the empty
minimum is taken as `0` and the new position is that minus one), both for
the local placeholder and for the durable row. -/
theorem insert_empty_assigns_neg_one (field : Option String) (newId : String) (now : Nat)
    (h : ¬ jsTrim (formText field) = "") :
    serverInsertPosition [] = -1 ∧
    (addTodo field newId []).ok = true ∧
    (addTodo field newId []).store.map (fun t => t.position) = [-1] ∧
    (onAddLocal field now []).map (fun t => t.position) = [-1] := by
  refine ⟨by decide, ?_, ?_, ?_⟩ <;>
    simp [addTodo, onAddLocal, h, serverInsertPosition, minPosOrZero,
      clientInsertPosition, clientMinPos]

/-- C1 witness for `insert_empty_assigns_neg_one`. -/
theorem insert_empty_assigns_neg_one_witness :
    (addTodo (some "buy milk") "00000000-0000-1000-8000-000000000000" []).store.map
      (fun t => t.position) = [-1] :=
  (insert_empty_assigns_neg_one (some "buy milk")
    "00000000-0000-1000-8000-000000000000" 0 (by decide)).2.2.1

/-- C4: for every non-empty list of items, the position assigned to a newly
inserted item is strictly less than every position currently present (hence
strictly less than the minimum), so the new item sorts first. -/
theorem insert_position_lt_min (todos : List Todo) (t : Todo) (ht : t ∈ todos) :
    serverInsertPosition todos < t.position := by
  have h := minPosOrZero_le_mem todos t ht
  unfold serverInsertPosition
  omega

/-- C4 witness: with existing positions `[5, 10]` the new item gets
position `4`, strictly below the minimum `5`. -/
theorem insert_position_lt_min_witness :
    serverInsertPosition
      [{ id := "a", text := "x", completed := false, position := 5 },
       { id := "b", text := "y", completed := false, position := 10 }] = 4 ∧
    serverInsertPosition
      [{ id := "a", text := "x", completed := false, position := 5 },
       { id := "b", text := "y", completed := false, position := 10 }] < 5 :=
  ⟨by decide,
   insert_position_lt_min _
     { id := "a", text := "x", completed := false, position := 5 } (by decide)⟩

/-- C8: an insert whose text is empty after trimming is rejected before any
state change: the server action makes no durable call, leaves the store
unchanged and signals failure synchronously (`ok = false`), and the client
handler adds no placeholder to the local view. -/
theorem insert_empty_text_rejected (field : Option String) (newId : String)
    (store : List Todo) (now : Nat) (lv : List Todo)
    (h : jsTrim (formText field) = "") :
    (addTodo field newId store).ok = false ∧
    (addTodo field newId store).calls = [] ∧
    (addTodo field newId store).store = store ∧
    onAddLocal field now lv = lv := by
  refine ⟨?_, ?_, ?_, ?_⟩ <;> simp [addTodo, onAddLocal, h]

/-- C8 witness: whitespace-only text is rejected with no state change. -/
theorem insert_empty_text_rejected_witness :
    (addTodo (some "   ") "00000000-0000-1000-8000-000000000000" []).ok = false ∧
    (addTodo (some "   ") "00000000-0000-1000-8000-000000000000" []).calls = [] :=
  ⟨(insert_empty_text_rejected (some "   ") _ [] 0 [] (by decide)).1,
   (insert_empty_text_rejected (some "   ") "00000000-0000-1000-8000-000000000000"
     [] 0 [] (by decide)).2.1⟩

/-- C9 (refinement): for the same list state, the optimistic position the
client computes for a newly inserted item equals the durable position the
server computes independently: both are (minimum existing position, or 0
when the list is empty) minus 1. -/
theorem client_server_insert_position_agree (todos : List Todo) :
    clientInsertPosition todos = serverInsertPosition todos := rfl

/-- C3: for every sequence of N unique identifiers, the fallback reorder
assignment maps the i-th identifier to position i — exactly the positions
0..N-1 in input order, with no duplicates. -/
theorem computeReorderPositions_spec (ids : List String) (_h : ids.Nodup)
    (i : Nat) (hi : i < ids.length) :
    (computeReorderPositions ids)[i]? = some (ids.get ⟨i, hi⟩, (i : Int)) ∧
    (computeReorderPositions ids).map Prod.snd =
      (List.range ids.length).map (fun n : Nat => (n : Int)) ∧
    ((computeReorderPositions ids).map Prod.snd).Nodup := by
  have hsnd : (computeReorderPositions ids).map Prod.snd =
      (List.range ids.length).map (fun n : Nat => (n : Int)) := by
    rw [computeReorderPositions, List.map_map, ← List.enum_map_fst ids, List.map_map]
    rfl
  refine ⟨?_, hsnd, ?_⟩
  · simp [computeReorderPositions, List.getElem?_enum,
      List.getElem?_eq_getElem hi, List.get_eq_getElem]
  · rw [hsnd]
    exact (List.nodup_range _).map Nat.cast_injective

/-- C3 witness: reordering `[b, a, c]` assigns b→0, a→1, c→2. -/
theorem computeReorderPositions_spec_witness :
    (computeReorderPositions ["b", "a", "c"])[0]? = some ("b", (0 : Int)) ∧
    (computeReorderPositions ["b", "a", "c"]).map Prod.snd =
      (List.range 3).map (fun n : Nat => (n : Int)) :=
  ⟨(computeReorderPositions_spec ["b", "a", "c"] (by decide) 0 (by decide)).1,
   (computeReorderPositions_spec ["b", "a", "c"] (by decide) 0 (by decide)).2.1⟩

/-- C5: every durable call a reorder issues involves only durable-format
identifiers (placeholder-format ids are stripped), the atomic call receives
exactly the stripped list, and if no durable id remains the operation makes
no store call at all and returns success. -/
theorem reorder_persists_only_durable (rpc : RpcOutcome) (ids : List String) :
    ((reorderTodos rpc ids).calls).all callUuidOnly = true ∧
    ((reorderTodos rpc ids).calls.head? =
        some (.rpcReorder (ids.filter isUuidFormat)) ∨
      ids.filter isUuidFormat = []) ∧
    (ids.filter isUuidFormat = [] →
      (reorderTodos rpc ids).calls = [] ∧ (reorderTodos rpc ids).ok = true) := by
  refine ⟨reorderTodos_calls_uuidOnly rpc ids, ?_, ?_⟩
  · by_cases h : (ids.filter isUuidFormat).isEmpty
    · exact Or.inr (List.isEmpty_iff.mp h)
    · exact Or.inl (by cases rpc <;> (simp only [reorderTodos]; rw [if_neg h]; rfl))
  · intro h
    have h' : (ids.filter isUuidFormat).isEmpty := by simp [List.isEmpty_iff, h]
    constructor <;> simp [reorderTodos, h']

/-- C5 witness: an all-placeholder reorder request makes no store call and
returns success. -/
theorem reorder_persists_only_durable_witness :
    (reorderTodos RpcOutcome.success ["temp-1712345678901", "temp-2"]).calls = [] ∧
    (reorderTodos RpcOutcome.success ["temp-1712345678901", "temp-2"]).ok = true :=
  (reorder_persists_only_durable RpcOutcome.success
    ["temp-1712345678901", "temp-2"]).2.2 (by decide)

/-- C7: with a non-empty stripped id set, the atomic RPC is always
attempted first; on success no per-item write is made, and on any failure
(error result or thrown) the operation falls through to one positional
write per identifier. -/
theorem reorder_rpc_first_then_fallback (rpc : RpcOutcome) (ids : List String)
    (h : ¬ ids.filter isUuidFormat = []) :
    (reorderTodos rpc ids).calls.head? =
      some (.rpcReorder (ids.filter isUuidFormat)) ∧
    (rpc = RpcOutcome.success →
      (reorderTodos rpc ids).calls = [.rpcReorder (ids.filter isUuidFormat)]) ∧
    (¬ rpc = RpcOutcome.success →
      (reorderTodos rpc ids).calls =
        .rpcReorder (ids.filter isUuidFormat) ::
          (computeReorderPositions (ids.filter isUuidFormat)).map
            (fun p => StoreCall.updateRowPosition p.1 p.2)) := by
  have h' : ¬ (ids.filter isUuidFormat).isEmpty := by
    simpa [List.isEmpty_iff] using h
  cases rpc with
  | success =>
    refine ⟨?_, ?_, ?_⟩
    · simp only [reorderTodos]; rw [if_neg h']; rfl
    · intro _
      simp only [reorderTodos]; rw [if_neg h']
    · intro hn
      exact absurd rfl hn
  | errorResult =>
    refine ⟨?_, ?_, ?_⟩
    · simp only [reorderTodos]; rw [if_neg h']; rfl
    · intro hs
      exact absurd hs (by decide)
    · intro _
      simp only [reorderTodos]; rw [if_neg h']
  | thrown =>
    refine ⟨?_, ?_, ?_⟩
    · simp only [reorderTodos]; rw [if_neg h']; rfl
    · intro hs
      exact absurd hs (by decide)
    · intro _
      simp only [reorderTodos]; rw [if_neg h']

/-- C7 witness: a two-id durable reorder whose RPC throws issues the RPC
attempt followed by the two positional writes. -/
theorem reorder_rpc_first_then_fallback_witness :
    (reorderTodos RpcOutcome.thrown
        ["00000000-0000-1000-8000-000000000000",
         "00000000-0000-1000-8000-000000000001"]).calls =
      [.rpcReorder
        ["00000000-0000-1000-8000-000000000000",
         "00000000-0000-1000-8000-000000000001"],
       .updateRowPosition "00000000-0000-1000-8000-000000000000" 0,
       .updateRowPosition "00000000-0000-1000-8000-000000000001" 1] := by
  have := (reorder_rpc_first_then_fallback RpcOutcome.thrown
    ["00000000-0000-1000-8000-000000000000",
     "00000000-0000-1000-8000-000000000001"] (by decide)).2.2 (by decide)
  rw [this]
  decide

/-- C2: for every mutating intent (insert, toggle, delete, clear-completed,
reorder) whose durable call fails — the store is unreachable, or a toggle
targets an id already deleted so the store reports `NotFoundError` — the
interaction still completes: the failure never reaches the interaction
handler, the store is left as it was, the already-applied local change is
not rolled back, and a toggle against an absent id is exactly the
`NotFoundError` case. -/
theorem mutation_durable_failure_preserves_local (m : Mutation) (s : Session)
    (net : Delivery)
    (hfail : net = Delivery.unreachable ∨
      ∃ e, durableRequest m (localStep m s.localView) s.store =
        Except.error e) :
    (sessionStep m net s).localView = localStep m s.localView ∧
    (sessionStep m net s).store = s.store ∧
    ∀ id, s.store.all (fun t => !(t.id = id)) = true →
      durableRequest (Mutation.toggle id)
        (localStep (Mutation.toggle id) s.localView) s.store =
        Except.error StoreError.notFound := by
  refine ⟨rfl, ?_, ?_⟩
  · cases net with
    | unreachable => rfl
    | delivered =>
      rcases hfail with h | ⟨e, he⟩
      · cases h
      · simp [sessionStep, he]
  · intro id hnone
    have hfilter : s.store.filter (fun t => t.id = id) = [] := by
      apply List.filter_eq_nil_iff.mpr
      intro t ht
      simpa using List.all_eq_true.mp hnone t ht
    show toggleTodoServer s.store id = Except.error StoreError.notFound
    simp [toggleTodoServer, hfilter]

/-- C2 witness: a toggle whose durable call lands after the row was deleted
(empty store) surfaces `NotFoundError`, leaves the store unchanged, and the
optimistic flip stands; a delete whose durable call never reaches the store
likewise keeps its local removal with the store untouched. -/
theorem mutation_durable_failure_preserves_local_witness :
    (sessionStep (Mutation.toggle "00000000-0000-1000-8000-000000000000")
        Delivery.delivered
        { localView := [{ id := "00000000-0000-1000-8000-000000000000",
                          text := "x", completed := false, position := 0 }],
          store := [] }).localView =
      onToggleLocal "00000000-0000-1000-8000-000000000000"
        [{ id := "00000000-0000-1000-8000-000000000000",
           text := "x", completed := false, position := 0 }] ∧
    (sessionStep (Mutation.toggle "00000000-0000-1000-8000-000000000000")
        Delivery.delivered
        { localView := [{ id := "00000000-0000-1000-8000-000000000000",
                          text := "x", completed := false, position := 0 }],
          store := [] }).store = [] ∧
    (sessionStep (Mutation.delete "00000000-0000-1000-8000-000000000001")
        Delivery.unreachable
        { localView := [{ id := "00000000-0000-1000-8000-000000000001",
                          text := "y", completed := true, position := 3 }],
          store := [{ id := "00000000-0000-1000-8000-000000000001",
                      text := "y", completed := true, position := 3 }] }).localView =
      onDeleteLocal "00000000-0000-1000-8000-000000000001"
        [{ id := "00000000-0000-1000-8000-000000000001",
           text := "y", completed := true, position := 3 }] ∧
    (sessionStep (Mutation.delete "00000000-0000-1000-8000-000000000001")
        Delivery.unreachable
        { localView := [{ id := "00000000-0000-1000-8000-000000000001",
                          text := "y", completed := true, position := 3 }],
          store := [{ id := "00000000-0000-1000-8000-000000000001",
                      text := "y", completed := true, position := 3 }] }).store =
      [{ id := "00000000-0000-1000-8000-000000000001",
         text := "y", completed := true, position := 3 }] :=
  ⟨(mutation_durable_failure_preserves_local
      (Mutation.toggle "00000000-0000-1000-8000-000000000000")
      { localView := [{ id := "00000000-0000-1000-8000-000000000000",
                        text := "x", completed := false, position := 0 }],
        store := [] }
      Delivery.delivered
      (Or.inr ⟨StoreError.notFound, rfl⟩)).1,
   (mutation_durable_failure_preserves_local
      (Mutation.toggle "00000000-0000-1000-8000-000000000000")
      { localView := [{ id := "00000000-0000-1000-8000-000000000000",
                        text := "x", completed := false, position := 0 }],
        store := [] }
      Delivery.delivered
      (Or.inr ⟨StoreError.notFound, rfl⟩)).2.1,
   (mutation_durable_failure_preserves_local
      (Mutation.delete "00000000-0000-1000-8000-000000000001")
      { localView := [{ id := "00000000-0000-1000-8000-000000000001",
                        text := "y", completed := true, position := 3 }],
        store := [{ id := "00000000-0000-1000-8000-000000000001",
                    text := "y", completed := true, position := 3 }] }
      Delivery.unreachable (Or.inl rfl)).1,
   (mutation_durable_failure_preserves_local
      (Mutation.delete "00000000-0000-1000-8000-000000000001")
      { localView := [{ id := "00000000-0000-1000-8000-000000000001",
                        text := "y", completed := true, position := 3 }],
        store := [{ id := "00000000-0000-1000-8000-000000000001",
                    text := "y", completed := true, position := 3 }] }
      Delivery.unreachable (Or.inl rfl)).2.1⟩

/-- C10: every generated placeholder identifier is `temp-` followed by
decimal digits; the client's prefix test recognises it, the server's
durable-identifier format test rejects it, and no durable call issued by a
reorder ever writes a position for a placeholder identifier. -/
theorem placeholder_discriminators_agree (n : Nat) (rpc : RpcOutcome)
    (ids : List String) (pos : Int) :
    startsWithTemp (placeholderId n) = true ∧
    isUuidFormat (placeholderId n) = false ∧
    (decimalDigits n).all Char.isDigit = true ∧
    ((reorderTodos rpc ids).calls).all
      (fun c => !(decide (c = StoreCall.updateRowPosition (placeholderId n) pos)))
      = true := by
  have huuid : isUuidFormat (placeholderId n) = false := rfl
  have hd : ∀ k, k < 10 → (Nat.digitChar k).isDigit = true := by
    intro k hk
    interval_cases k <;> decide
  have hdig : ∀ fuel m, (decimalDigitsAux fuel m).all Char.isDigit = true := by
    intro fuel
    induction fuel with
    | zero => intro m; rfl
    | succ fuel ih =>
      intro m
      by_cases hm : m < 10
      · simp [decimalDigitsAux, hm, hd m hm]
      · simp [decimalDigitsAux, hm, List.all_append, ih (m / 10),
          hd (m % 10) (Nat.mod_lt _ (by norm_num))]
  refine ⟨rfl, huuid, hdig _ _, ?_⟩
  apply List.all_eq_true.mpr
  intro c hc
  have hu := List.all_eq_true.mp (reorderTodos_calls_uuidOnly rpc ids) c hc
  by_cases hceq : c = StoreCall.updateRowPosition (placeholderId n) pos
  · rw [hceq] at hu
    rw [show callUuidOnly (StoreCall.updateRowPosition (placeholderId n) pos)
        = isUuidFormat (placeholderId n) from rfl, huuid] at hu
    cases hu
  · simp [hceq]

/-- The batch of fallback position writes never changes a row's id. -/
theorem reorderedRow_id (ids : List String) (n : Nat) (t : Todo) :
    (reorderedRow ids n t).id = t.id := by
  unfold reorderedRow
  split <;> rfl

/-- Closed form of the fallback write batch: when the identifiers are
distinct, applying the per-row position writes in order gives every row
whose id occurs in `ids` the position `n +` its index, and leaves every
other row untouched. -/
theorem applyOrderFrom_eq_map (ids : List String) :
    ∀ (n : Nat) (store : List Todo), ids.Nodup →
    applyOrderFrom n ids store = store.map (reorderedRow ids n) := by
  induction ids with
  | nil =>
    intro n store _
    have hrr : reorderedRow [] n = fun t => t := by
      funext t
      simp [reorderedRow]
    show store = List.map (reorderedRow [] n) store
    rw [hrr, List.map_id']
  | cons id rest ih =>
    intro n store hnd
    have hid : id ∉ rest := (List.nodup_cons.mp hnd).1
    have hrest : rest.Nodup := (List.nodup_cons.mp hnd).2
    have hstep : applyOrderFrom n (id :: rest) store =
        applyOrderFrom (n + 1) rest (updateRow id n store) := rfl
    rw [hstep, ih (n + 1) _ hrest, updateRow, List.map_map]
    congr 1
    funext t
    show reorderedRow rest (n + 1)
      (if t.id = id then { t with position := (n : Int) } else t) =
      reorderedRow (id :: rest) n t
    by_cases h : t.id = id
    · rw [if_pos h]
      unfold reorderedRow
      rw [if_neg (by simpa [h] using hid), if_pos (by simp [h])]
      simp [h, List.indexOf_cons_self]
    · rw [if_neg h]
      unfold reorderedRow
      by_cases hm : t.id ∈ rest
      · rw [if_pos hm, if_pos (List.mem_cons_of_mem _ hm)]
        rw [List.indexOf_cons_ne _ (Ne.symm h)]
        congr 1
        push_cast
        omega
      · rw [if_neg hm, if_neg (by simp [h, hm])]

/-- C6 (round-trip): for every ordered list of distinct durable identifiers
covering the store's items, applying the reorder's durable writes and then
reading the list back ordered by position ascending yields the items in
exactly the given order. -/
theorem reorder_listItems_roundtrip (ids : List String) (store : List Todo)
    (hNodup : ids.Nodup)
    (hPerm : (store.map (fun t => t.id)).Perm ids)
    (hUuid : ∀ id ∈ ids, isUuidFormat id = true) :
    (listItems (reorderStore ids store)).map (fun t => t.id) = ids := by
  have hfilter : ids.filter isUuidFormat = ids := List.filter_eq_self.mpr hUuid
  have hfinal : reorderStore ids store = store.map (reorderedRow ids 0) := by
    rw [reorderStore, hfilter]
    exact applyOrderFrom_eq_map ids 0 store hNodup
  rw [hfinal]
  set final := store.map (reorderedRow ids 0) with hfinaldef
  set s := listItems final with hsdef
  have hsperm : s.Perm final := List.perm_insertionSort byPosition final
  have hsorted : List.Sorted byPosition s := List.sorted_insertionSort byPosition final
  have hmem : ∀ t ∈ store, t.id ∈ ids := fun t ht =>
    hPerm.mem_iff.mp (List.mem_map_of_mem _ ht)
  have hpos : ∀ t ∈ final, t.position = (List.indexOf t.id ids : Int) := by
    intro t ht
    rcases List.mem_map.mp ht with ⟨u, hu, rfl⟩
    rw [reorderedRow_id]
    unfold reorderedRow
    rw [if_pos (hmem u hu)]
    show ((0 + List.indexOf u.id ids : Nat) : Int) = (List.indexOf u.id ids : Int)
    omega
  have h4 : ids.map (fun x => List.indexOf x ids) = List.range ids.length := by
    apply List.ext_getElem (by simp)
    intro i hi1 hi2
    simp only [List.getElem_map, List.getElem_range]
    exact List.indexOf_getElem hNodup i (by simpa using hi1)
  have hmapperm : (s.map (fun t => List.indexOf t.id ids)).Perm
      (List.range ids.length) := by
    have h1 : (s.map fun t => List.indexOf t.id ids).Perm
        (final.map fun t => List.indexOf t.id ids) := hsperm.map _
    have h5 : final.map (fun t => List.indexOf t.id ids) =
        store.map (fun t => List.indexOf t.id ids) := by
      rw [hfinaldef, List.map_map]
      congr 1
      funext t
      simp [Function.comp, reorderedRow_id]
    have h6 : store.map (fun t => List.indexOf t.id ids) =
        (store.map (fun t => t.id)).map (fun x => List.indexOf x ids) := by
      rw [List.map_map]
      rfl
    have h3 : ((store.map (fun t => t.id)).map (fun x => List.indexOf x ids)).Perm
        (ids.map (fun x => List.indexOf x ids)) := hPerm.map _
    rw [← h4]
    rw [h5, h6] at h1
    exact h1.trans h3
  have hsorted_nat : List.Sorted (fun a b => a ≤ b)
      (s.map fun t => List.indexOf t.id ids) := by
    rw [List.Sorted] at hsorted ⊢
    rw [List.pairwise_map]
    apply List.Pairwise.imp_of_mem ?_ hsorted
    intro a b ha hb hab
    have hpa := hpos a (hsperm.subset ha)
    have hpb := hpos b (hsperm.subset hb)
    have hcast : (List.indexOf a.id ids : Int) ≤ (List.indexOf b.id ids : Int) := by
      rw [← hpa, ← hpb]
      exact hab
    exact_mod_cast hcast
  have heq : s.map (fun t => List.indexOf t.id ids) = List.range ids.length :=
    List.eq_of_perm_of_sorted hmapperm hsorted_nat (List.sorted_le_range _)
  have hlen : s.length = ids.length := by
    have := congrArg List.length heq
    simpa using this
  apply List.ext_getElem (by simpa using hlen)
  intro i hi1 hi2
  have hsi : i < s.length := by simpa using hi1
  have hgi : List.indexOf (s.get ⟨i, hsi⟩).id ids = i := by
    have := congrArg (fun l => l[i]?) heq
    simp only [List.getElem?_map] at this
    rw [List.getElem?_eq_getElem hsi, List.getElem?_eq_getElem (by simpa using hi2)] at this
    simpa [List.getElem_range, List.get_eq_getElem] using this
  have hlt : List.indexOf (s.get ⟨i, hsi⟩).id ids < ids.length := by
    rw [hgi]
    simpa using hi2
  have hix : ids[List.indexOf (s.get ⟨i, hsi⟩).id ids]? =
      some (s.get ⟨i, hsi⟩).id :=
    List.getElem?_indexOf (List.indexOf_lt_length.mp hlt)
  rw [hgi, List.getElem?_eq_getElem hi2] at hix
  have hid : ids[i] = (s.get ⟨i, hsi⟩).id := Option.some.inj hix
  simp only [List.getElem_map, List.get_eq_getElem] at hid ⊢
  exact hid.symm

/-- C6 witness: reordering a scrambled three-row store to
`[u2, u0, u1]` and reading back by position yields exactly that order. -/
theorem reorder_listItems_roundtrip_witness :
    (listItems (reorderStore
        ["00000000-0000-1000-8000-000000000002",
         "00000000-0000-1000-8000-000000000000",
         "00000000-0000-1000-8000-000000000001"]
        [{ id := "00000000-0000-1000-8000-000000000000", text := "a",
           completed := false, position := 5 },
         { id := "00000000-0000-1000-8000-000000000001", text := "b",
           completed := true, position := -2 },
         { id := "00000000-0000-1000-8000-000000000002", text := "c",
           completed := false, position := 7 }])).map (fun t => t.id) =
      ["00000000-0000-1000-8000-000000000002",
       "00000000-0000-1000-8000-000000000000",
       "00000000-0000-1000-8000-000000000001"] :=
  reorder_listItems_roundtrip _ _ (by decide) (by decide) (by decide)
